import Mathlib

/-
  Verification development for the nested_dep_check repository
  (src/checker.go, first file variant, lines 1-537).

  The Go code is shallowly embedded: decoded JSON documents become the
  inductive type Json, Go maps decoded from JSON become association lists,
  the shared visited map becomes an explicitly threaded list of keys, and
  the network (npm registry, npm web page, PyPI) becomes an environment
  record of finite/abstract responses.  The recursive resolver is embedded
  with an explicit fuel parameter; termination of the Go code is expressed
  as stabilisation of the result once the fuel exceeds a bound computed
  from the environment.
-/

namespace NestedDep

/-- Decoded JSON values, as far as checker.go inspects them.  Go decodes
into `interface\x7b\x7d` values and performs type assertions to `string`,
`map[string]interface\x7b\x7d` and `[]interface\x7b\x7d`; all other shapes
(numbers, booleans, null) are collapsed into `other` because the code never
successfully asserts them. -/
inductive Json : Type where
  | str (s : String) : Json
  | obj (fields : List (String × Json)) : Json
  | arr (elems : List Json) : Json
  | other : Json

/-- A decoded JSON object, i.e. the result of a successful type assertion
to `map[string]interface\x7b\x7d`. -/
abbrev JMap := List (String × Json)

/-- Go map read on a string-keyed association list (decoded JSON objects
have unique keys, so first-match lookup is the map read). -/
def assocFind {α : Type} : List (String × α) → String → Option α
  | [], _ => none
  | (k, v) :: rest, key => if k = key then some v else assocFind rest key

/-- Reading a key from a decoded JSON object (Go map indexing). -/
def jLookup (m : JMap) (key : String) : Option Json := assocFind m key

/-- Go type assertion `v.(string)` returning the success case. -/
def jStr : Json → Option String
  | Json.str s => some s
  | _ => none

/-- Go pattern `str, _ := v.(string)`: the string value, or the zero value
on a failed assertion. -/
def jStrD (j : Json) : String := (jStr j).getD ""

/-!  String primitives.  The embedding works on the character lists of
strings with structural recursion (the Lean core string functions walk
byte positions with well-founded recursion, which the kernel cannot
evaluate; the Go semantics is mirrored directly on characters). -/

/-- The whitespace set of Go `unicode.IsSpace` in the Latin-1 range:
space, horizontal tab through carriage return (9-13), next line (133) and
no-break space (160).  Higher code points do not occur in the inputs
considered here. -/
def goIsSpace (c : Char) : Bool :=
  c = ' ' || ('\t' ≤ c && c ≤ '\r') || c.toNat = 133 || c.toNat = 160

/-- Go `strings.TrimSpace`: drop whitespace from both ends. -/
def goTrim (s : String) : String :=
  (((s.data.dropWhile goIsSpace).reverse.dropWhile goIsSpace).reverse).asString

/-- Go `strings.HasPrefix`. -/
def goStartsWith (s pre : String) : Bool := pre.data.isPrefixOf s.data

/-- Character-level splitting around each non-overlapping occurrence of
`sep`, scanning left to right (the semantics of Go `strings.Split` for a
non-empty separator).  The fuel starts at the input length plus one and
every step consumes one unit and at least one character, so the
fuel-exhaustion arm is never reached. -/
def splitChars (sep : List Char) : Nat → List Char → List Char → List (List Char)
  | 0, rest, acc => [acc.reverse ++ rest]
  | _ + 1, [], acc => [acc.reverse]
  | f + 1, c :: rest, acc =>
    if sep.isPrefixOf (c :: rest) then
      acc.reverse :: splitChars sep f (List.drop (sep.length - 1) rest) []
    else splitChars sep f rest (c :: acc)

/-- Go `strings.Split` (non-empty separator). -/
def goSplitOn (s sep : String) : List String :=
  (splitChars sep.data (s.data.length + 1) s.data []).map List.asString

/-- Go `strings.ToUpper` on the ASCII range (the keyword constants this
code compares against are all ASCII). -/
def goToUpper (s : String) : String := (s.data.map Char.toUpper).asString

/-- Does `needle` occur as a contiguous sublist? -/
def containsChars (needle : List Char) : List Char → Bool
  | [] => needle.isEmpty
  | c :: rest => needle.isPrefixOf (c :: rest) || containsChars needle rest

/-- Go `strings.Contains`. -/
def strContains (s sub : String) : Bool := containsChars sub.data s.data

/-- checker.go lines 21-35: `isCopyleft` checks whether a license text is
likely copyleft by case-insensitive keyword containment. -/
def isCopyleft (license : String) : Bool :=
  let copyleft := ["GPL", "GNU GENERAL PUBLIC LICENSE", "LGPL",
    "GNU LESSER GENERAL PUBLIC LICENSE", "AGPL",
    "GNU AFFERO GENERAL PUBLIC LICENSE", "MPL", "MOZILLA PUBLIC LICENSE",
    "CC-BY-SA", "CREATIVE COMMONS ATTRIBUTION-SHAREALIKE", "EPL",
    "ECLIPSE PUBLIC LICENSE", "OFL", "OPEN FONT LICENSE", "CPL",
    "COMMON PUBLIC LICENSE", "OSL", "OPEN SOFTWARE LICENSE"]
  copyleft.any (fun kw => strContains (goToUpper license) kw)

/-- checker.go lines 50-53: `removeCaretTilde` strips leading caret or
tilde characters from a trimmed version string. -/
def removeCaretTilde (ver : String) : String :=
  ((goTrim ver).data.dropWhile (fun c => c = '^' || c = '~')).asString

/-- checker.go lines 79-89: `parseLicenseFromLine` picks the first known
license keyword contained (case-insensitively) in a line. -/
def parseLicenseFromLine (line : String) : String :=
  let knownLicenses := ["MIT", "BSD", "APACHE", "ISC", "ARTISTIC", "ZLIB",
    "WTFPL", "CDDL", "UNLICENSE", "EUPL", "MPL", "CC0", "LGPL", "AGPL"]
  match knownLicenses.find? (fun kw => strContains (goToUpper line) kw) with
  | some kw => kw
  | none => ""

/-- The npm-side environment: the registry maps a package name to its
decoded metadata document (absence models a network or JSON-decode
failure of `http.Get` in `resolveNodeDependency`), and `page` is the raw
body that `curl -s https://www.npmjs.com/package/<pkg>` would print
(absence models a curl failure). -/
structure NpmEnv where
  registry : List (String × JMap)
  page : String → Option String

/-- Registry fetch plus decode for one package (checker.go lines 129-134):
a missing entry stands for a failed `http.Get` or a failed decode. -/
def regFetch (env : NpmEnv) (pkg : String) : Option JMap :=
  assocFind env.registry pkg

/-- checker.go lines 56-77: `fallbackNpmLicenseByCurl` shells out to
`curl -s` piped into `grep -i license`, then scans the matching lines for
a known license keyword.  `grep` prints the lines of the page containing
"license" case-insensitively and exits non-zero when there are none. -/
def fallbackNpmLicenseByCurl (env : NpmEnv) (pkg : String) : String :=
  match env.page pkg with
  | none => ""
  | some body =>
    let grepOut := (goSplitOn body "\n").filter
      (fun ln => strContains (goToUpper ln) "LICENSE")
    if grepOut.isEmpty then ""
    else firstLicense grepOut
where
  /-- The loop over grep output lines: skip blank lines, return the first
  non-empty keyword found by `parseLicenseFromLine`. -/
  firstLicense : List String → String
    | [] => ""
    | ln :: rest =>
      let t := goTrim ln
      if t = "" then firstLicense rest
      else
        let lic := parseLicenseFromLine t
        if lic != "" then lic else firstLicense rest

/-- checker.go lines 174-197: `findNpmLicense` reads the license from a
version metadata object, trying the plain-string field, then the object
field (type key, then name key), then the first element of the licenses
array (type key, then name key), and returns "Unknown" otherwise. -/
def findNpmLicense (verData : JMap) : String :=
  let fromString : Option String :=
    match jLookup verData "license" with
    | some (Json.str l) => if l != "" then some l else none
    | _ => none
  match fromString with
  | some l => l
  | none =>
    let fromObj : Option String :=
      match jLookup verData "license" with
      | some (Json.obj lm) => typeThenName lm
      | _ => none
    match fromObj with
    | some l => l
    | none => licensesPart
where
  /-- checker.go lines 186-195: the first element of the licenses array,
  when it is an object, read with the type-then-name pattern. -/
  licensesPart : String :=
    match jLookup verData "licenses" with
    | some (Json.arr (first :: _)) =>
      match first with
      | Json.obj o =>
        match typeThenName o with
        | some l => l
        | none => "Unknown"
      | _ => "Unknown"
    | _ => "Unknown"
  /-- The shared Go pattern: the `type` key if it is a non-empty string,
  otherwise the `name` key if it is a non-empty string. -/
  typeThenName (m : JMap) : Option String :=
    match jLookup m "type" with
    | some (Json.str t) =>
      if t != "" then some t
      else
        match jLookup m "name" with
        | some (Json.str n) => if n != "" then some n else none
        | _ => none
    | _ =>
      match jLookup m "name" with
      | some (Json.str n) => if n != "" then some n else none
      | _ => none

/-- checker.go lines 93-101: one resolved Node.js dependency. -/
inductive NodeDependency : Type where
  | mk (Name Version License Details : String) (Copyleft : Bool)
       (Transitive : List NodeDependency) (Language : String) : NodeDependency

def NodeDependency.Name : NodeDependency → String
  | .mk n _ _ _ _ _ _ => n

def NodeDependency.Version : NodeDependency → String
  | .mk _ v _ _ _ _ _ => v

def NodeDependency.License : NodeDependency → String
  | .mk _ _ l _ _ _ _ => l

def NodeDependency.Details : NodeDependency → String
  | .mk _ _ _ d _ _ _ => d

def NodeDependency.Copyleft : NodeDependency → Bool
  | .mk _ _ _ _ c _ _ => c

def NodeDependency.Transitive : NodeDependency → List NodeDependency
  | .mk _ _ _ _ _ t _ => t

def NodeDependency.Language : NodeDependency → String
  | .mk _ _ _ _ _ _ lg => lg

/-- The visited map of checker.go (a Go `map[string]bool` used as a set of
`pkg@ver` keys, mutated in place and therefore shared by the whole run);
embedded as the list of keys that have been set, threaded explicitly. -/
abbrev Visited := List String

/-- The visited-set key `pkg + "@" + ver` (checker.go line 125). -/
def nkey (pkg ver : String) : String := pkg ++ "@" ++ ver

/-- Result of one `resolveNodeDependency` call: the Go `(dep, err)` pair
(error, or nil-nil for an already-visited key, or a node), together with
the visited set as left by the call (map mutations persist on error). -/
abbrev NpmRes := Except Unit (Option NodeDependency) × Visited

/-- The Go loop pattern shared by the dependency loop inside
`resolveNodeDependency` (lines 147-155) and the top-level loop of
`parseNodeDependencies` (lines 114-120): iterate an association list of
declared dependencies, resolve each with the threaded visited set, and
keep the node whenever the call returns neither an error nor nil.  (Go
map iteration order is unspecified; the embedding fixes the decoded
document order of the dependency object as the representative order.) -/
def resolveChildrenWith (res : String → String → Visited → NpmRes) :
    List (String × Json) → Visited → List NodeDependency × Visited
  | [], vis => ([], vis)
  | (dn, dv) :: rest, vis =>
    match res dn (removeCaretTilde (jStrD dv)) vis with
    | (Except.ok (some nd), vis2) =>
      let r := resolveChildrenWith res rest vis2
      (nd :: r.1, r.2)
    | (_, vis2) => resolveChildrenWith res rest vis2

/-- checker.go lines 135-141: an empty requested version is replaced by
the registry dist-tags latest version when that tag is a string. -/
def effectiveVer (regData : JMap) (ver : String) : String :=
  if ver = "" then
    match jLookup regData "dist-tags" with
    | some (Json.obj dist) =>
      match jLookup dist "latest" with
      | some (Json.str lat) => lat
      | _ => ver
    | _ => ver
  else ver

/-- checker.go lines 144-145: look the (effective) version up in the
registry versions index. -/
def versionData (regData : JMap) (ver : String) : Option JMap :=
  match jLookup regData "versions" with
  | some (Json.obj vs) =>
    match jLookup vs ver with
    | some (Json.obj verData) => some verData
    | _ => none
  | _ => none

/-- checker.go line 147: the declared direct dependency map of a version
(empty when absent or not an object). -/
def depsOf (verData : JMap) : List (String × Json) :=
  match jLookup verData "dependencies" with
  | some (Json.obj deps) => deps
  | _ => []

/-- checker.go lines 158-164: keep the structured license unless it is
"Unknown", in which case use the curl fallback when it is non-empty. -/
def finalLicense (env : NpmEnv) (pkg license : String) : String :=
  if license = "Unknown" then
    let l2 := fallbackNpmLicenseByCurl env pkg
    if l2 != "" then l2 else license
  else license

/-- checker.go lines 124-172: `resolveNodeDependency`.  The Go function
recurses through the shared visited map; the embedding adds a fuel
parameter (recursion depth budget) and threads the visited set.  At fuel
zero the embedding reports an error; the stabilisation theorems below
show the fuel is irrelevant once it exceeds a bound computed from the
environment, which is the termination argument for the Go recursion. -/
def resolveNode (env : NpmEnv) : Nat → String → String → Visited → NpmRes
  | 0, _, _, vis => (Except.error (), vis)
  | f + 1, pkg, ver, vis =>
    let key := nkey pkg ver
    if key ∈ vis then (Except.ok none, vis)
    else
      let vis1 := key :: vis
      match regFetch env pkg with
      | none => (Except.error (), vis1)
      | some regData =>
        let ver1 := effectiveVer regData ver
        match versionData regData ver1 with
        | some verData =>
          let cr := resolveChildrenWith
            (fun a b c => resolveNode env f a b c) (depsOf verData) vis1
          let license := finalLicense env pkg (findNpmLicense verData)
          (Except.ok (some (NodeDependency.mk pkg ver1 license
            ("https://www.npmjs.com/package/" ++ pkg) (isCopyleft license)
            cr.1 "node")), cr.2)
        | none =>
          let license := finalLicense env pkg "Unknown"
          (Except.ok (some (NodeDependency.mk pkg ver1 license
            ("https://www.npmjs.com/package/" ++ pkg) (isCopyleft license)
            [] "node")), vis1)

/-- The body of `resolveNodeDependency` after the visited check, as a
function of the registry fetch result (checker.go lines 144-171); naming
this stage lets the proofs rewrite the fetch outcome. -/
def withVerData (env : NpmEnv) (f : Nat) (pkg ver1 : String) (vis1 : Visited) :
    Option JMap → NpmRes
  | some verData =>
    let cr := resolveChildrenWith
      (fun a b c => resolveNode env f a b c) (depsOf verData) vis1
    let license := finalLicense env pkg (findNpmLicense verData)
    (Except.ok (some (NodeDependency.mk pkg ver1 license
      ("https://www.npmjs.com/package/" ++ pkg) (isCopyleft license)
      cr.1 "node")), cr.2)
  | none =>
    let license := finalLicense env pkg "Unknown"
    (Except.ok (some (NodeDependency.mk pkg ver1 license
      ("https://www.npmjs.com/package/" ++ pkg) (isCopyleft license)
      [] "node")), vis1)

/-- The body of `resolveNodeDependency` dispatching on the registry fetch
(checker.go lines 129-134). -/
def withRegData (env : NpmEnv) (f : Nat) (pkg ver : String) (vis1 : Visited) :
    Option JMap → NpmRes
  | none => (Except.error (), vis1)
  | some regData =>
    withVerData env f pkg (effectiveVer regData ver) vis1
      (versionData regData (effectiveVer regData ver))

/-- checker.go lines 103-122: `parseNodeDependencies` for an already
decoded package.json document.  A missing or non-object `dependencies`
field is the error "no dependencies found in package.json"; otherwise the
top-level loop resolves each declared dependency with one shared visited
map.  The second component records the log lines the function prints: the
loop body contains no log call, so the trace is empty. -/
def parseNodeDependencies (env : NpmEnv) (fuel : Nat) (data : JMap) :
    Except Unit (List NodeDependency × List String) :=
  match jLookup data "dependencies" with
  | some (Json.obj deps) =>
    Except.ok ((resolveChildrenWith
      (fun a b c => resolveNode env fuel a b c) deps []).1, [])
  | _ => Except.error ()

/-- checker.go lines 201-209: one resolved Python dependency. -/
inductive PythonDependency : Type where
  | mk (Name Version License Details : String) (Copyleft : Bool)
       (Transitive : List PythonDependency) (Language : String) : PythonDependency

def PythonDependency.Name : PythonDependency → String
  | .mk n _ _ _ _ _ _ => n

def PythonDependency.Version : PythonDependency → String
  | .mk _ v _ _ _ _ _ => v

def PythonDependency.License : PythonDependency → String
  | .mk _ _ l _ _ _ _ => l

def PythonDependency.Details : PythonDependency → String
  | .mk _ _ _ d _ _ _ => d

def PythonDependency.Copyleft : PythonDependency → Bool
  | .mk _ _ _ _ c _ _ => c

def PythonDependency.Transitive : PythonDependency → List PythonDependency
  | .mk _ _ _ _ _ t _ => t

def PythonDependency.Language : PythonDependency → String
  | .mk _ _ _ _ _ _ lg => lg

/-- One PyPI fetch outcome: a network failure of `http.Get`, or a response
with its status code and (when the body decodes to a JSON object) the
decoded body. -/
inductive PyFetch : Type where
  | netErr : PyFetch
  | resp (status : Nat) (body : Option JMap) : PyFetch

/-- The PyPI-side environment: the response of
`http.Get("https://pypi.org/pypi/" + pkg + "/json")` per package. -/
structure PyEnv where
  pypi : String → PyFetch

/-- The errors `resolvePythonDependency` can return (checker.go lines
249-259): a network error, "PyPI status:%d", a JSON decode error, or
"info missing for %s". -/
inductive PyErr : Type where
  | netErr : PyErr
  | status (code : Nat) : PyErr
  | decodeErr : PyErr
  | infoMissing (pkg : String) : PyErr
deriving DecidableEq

/-- checker.go lines 245-276: `resolvePythonDependency`.  Checks and
marks the visited key, fetches the PyPI JSON document, rejects non-200
statuses and documents without an `info` object, substitutes the info
version for an empty requested version, reads the license from the
`info.license` string (defaulting to "Unknown"), and returns a node.  The
function issues no recursive calls and never fills `Transitive`. -/
def resolvePythonDependency (env : PyEnv) (pkg ver : String) (vis : Visited) :
    Except PyErr (Option PythonDependency) × Visited :=
  let key := nkey pkg ver
  if key ∈ vis then (Except.ok none, vis)
  else
    let vis1 := key :: vis
    match env.pypi pkg with
    | PyFetch.netErr => (Except.error PyErr.netErr, vis1)
    | PyFetch.resp status body =>
      if status ≠ 200 then (Except.error (PyErr.status status), vis1)
      else
        match body with
        | none => (Except.error PyErr.decodeErr, vis1)
        | some data =>
          match jLookup data "info" with
          | some (Json.obj info) =>
            let ver1 :=
              if ver = "" then
                match jLookup info "version" with
                | some (Json.str v2) => v2
                | _ => ver
              else ver
            let license :=
              match jLookup info "license" with
              | some (Json.str l) => if l != "" then l else "Unknown"
              | _ => "Unknown"
            (Except.ok (some (PythonDependency.mk pkg ver1 license
              ("https://pypi.org/pypi/" ++ pkg ++ "/json")
              (isCopyleft license) [] "python")), vis1)
          | _ => (Except.error (PyErr.infoMissing pkg), vis1)

/-- checker.go lines 278: one extracted requirement line. -/
structure Requirement where
  name : String
  version : String
deriving DecidableEq

/-- checker.go lines 211-243: `parsePythonDependencies` after the
requirements have been extracted.  Each requirement is resolved by its
own goroutine, each with a fresh empty visited map
(`resolvePythonDependency(nm, vr, map[string]bool\x7b\x7d)` at line 226);
successful nodes are collected over one channel and errors are drained
and logged from another.  Channel delivery order is a scheduling artifact,
so the embedding fixes the requirement order as the representative
interleaving; the multiset of nodes and errors is what the code
determines.  The second component is the list of logged errors. -/
def parsePythonDependencies (env : PyEnv) (reqs : List Requirement) :
    List PythonDependency × List PyErr :=
  match reqs with
  | [] => ([], [])
  | r :: rest =>
    let tail := parsePythonDependencies env rest
    match (resolvePythonDependency env r.name r.version []).1 with
    | Except.ok (some d) => (d :: tail.1, tail.2)
    | Except.ok none => tail
    | Except.error e => (tail.1, e :: tail.2)

/-- checker.go lines 279-301: the loop body of `parseRequirements` over
the raw lines.  Blank lines and lines starting with "#" (after trimming)
are skipped; a line splitting into exactly two parts on "==" (tried
first) or else on ">=" becomes one requirement of its trimmed parts; any
other line is skipped and logged ("Invalid python requirement:").  The
second component is the list of logged lines. -/
def parseReqLines : List String → List Requirement × List String
  | [] => ([], [])
  | ln :: rest =>
    let tail := parseReqLines rest
    let line := goTrim ln
    if line = "" || goStartsWith line "#" then tail
    else
      let p := goSplitOn line "=="
      if p.length = 2 then
        ({ name := goTrim (p.getD 0 ""), version := goTrim (p.getD 1 "") } :: tail.1,
          tail.2)
      else
        let p2 := goSplitOn line ">="
        if p2.length = 2 then
          ({ name := goTrim (p2.getD 0 ""), version := goTrim (p2.getD 1 "") } :: tail.1,
            tail.2)
        else (tail.1, line :: tail.2)

/-- checker.go lines 279-301: `parseRequirements` splits the input text
into lines and processes each line.  (After a successful read the Go
function always returns a nil error.) -/
def parseRequirements (raw : String) : List Requirement × List String :=
  parseReqLines (goSplitOn raw "\n")

/-- checker.go lines 305-312: one flattened record. -/
structure FlatDep where
  Name : String
  Version : String
  License : String
  Details : String
  Language : String
  Parent : String
deriving DecidableEq

/-- checker.go lines 314-326: `flattenNodeAll` emits the record of each
node (with the parent name passed down) and then, when the node has
transitive dependencies, their flattened records with this node as
parent, before moving to the next sibling. -/
def flattenNodeAll : List NodeDependency → String → List FlatDep
  | [], _ => []
  | NodeDependency.mk n v l d _ tr lg :: rest, parent =>
    FlatDep.mk n v l d lg parent ::
      ((if tr.length > 0 then flattenNodeAll tr n else []) ++
        flattenNodeAll rest parent)

/-- checker.go lines 328-340: `flattenPyAll`, identical shape for Python
nodes. -/
def flattenPyAll : List PythonDependency → String → List FlatDep
  | [], _ => []
  | PythonDependency.mk n v l d _ tr lg :: rest, parent =>
    FlatDep.mk n v l d lg parent ::
      ((if tr.length > 0 then flattenPyAll tr n else []) ++
        flattenPyAll rest parent)

/-! ### Specification-side definitions (for refinement statements)

These definitions follow the wording of the specification, to be compared
with the definitions embedded from the source. -/

/-- Modelled from the spec: the license shapes of strategy 1, in priority
order: the plain string field, the object type key, the object name key,
the first array element type key, the first array element name key. -/
def npmLicenseShapes (verData : JMap) : List (Option String) :=
  [ (jLookup verData "license").bind jStr,
    licenseObjField verData "type",
    licenseObjField verData "name",
    licensesArrField verData "type",
    licensesArrField verData "name" ]
where
  licenseObjField (verData : JMap) (fld : String) : Option String :=
    match jLookup verData "license" with
    | some (Json.obj lm) => (jLookup lm fld).bind jStr
    | _ => none
  licensesArrField (verData : JMap) (fld : String) : Option String :=
    match jLookup verData "licenses" with
    | some (Json.arr (Json.obj o :: _)) => (jLookup o fld).bind jStr
    | _ => none

/-- The first present and non-empty string among a list of candidate
values. -/
def firstNonEmpty : List (Option String) → Option String
  | [] => none
  | some s :: rest => if s != "" then some s else firstNonEmpty rest
  | none :: rest => firstNonEmpty rest

/-- Modelled from the spec: attempt the shapes in priority order and
return the first non-empty value found, "Unknown" when no shape yields a
non-empty value. -/
def findNpmLicenseSpec (verData : JMap) : String :=
  (firstNonEmpty (npmLicenseShapes verData)).getD "Unknown"

/-- Modelled from the spec: the requirement extracted from one line of
the plain-text requirement list, when the line (trimmed, not blank, not a
comment) splits into exactly two parts on "==", or else on ">=" (the
first matching separator wins). -/
def reqOfLine (ln : String) : Option Requirement :=
  let line := goTrim ln
  if line = "" || goStartsWith line "#" then none
  else
    let p := goSplitOn line "=="
    if p.length = 2 then
      some { name := goTrim (p.getD 0 ""), version := goTrim (p.getD 1 "") }
    else
      let p2 := goSplitOn line ">="
      if p2.length = 2 then
        some { name := goTrim (p2.getD 0 ""), version := goTrim (p2.getD 1 "") }
      else none

/-- Modelled from the spec: a line draws a warning iff its trimmed text
is non-empty, is not a comment, and matches neither separator. -/
def lineWarned (ln : String) : Bool :=
  let line := goTrim ln
  (line != "") && (!goStartsWith line "#") &&
    ((goSplitOn line "==").length != 2) && ((goSplitOn line ">=").length != 2)

/-- Modelled from the spec: pre-order flattening of a Node forest — emit
the record of the current node (with the parent name), then the records
of its children with this node as parent, then the following siblings. -/
def flattenNodeSpec : List NodeDependency → String → List FlatDep
  | [], _ => []
  | NodeDependency.mk n v l d _ tr lg :: rest, parent =>
    FlatDep.mk n v l d lg parent ::
      (flattenNodeSpec tr n ++ flattenNodeSpec rest parent)

/-- Modelled from the spec: pre-order flattening of a Python forest. -/
def flattenPySpec : List PythonDependency → String → List FlatDep
  | [], _ => []
  | PythonDependency.mk n v l d _ tr lg :: rest, parent =>
    FlatDep.mk n v l d lg parent ::
      (flattenPySpec tr n ++ flattenPySpec rest parent)

/-- Number of nodes in a Node dependency forest. -/
def sizeNodeForest : List NodeDependency → Nat
  | [] => 0
  | NodeDependency.mk _ _ _ _ _ tr _ :: rest =>
    1 + sizeNodeForest tr + sizeNodeForest rest

/-- Number of nodes in a Python dependency forest. -/
def sizePyForest : List PythonDependency → Nat
  | [] => 0
  | PythonDependency.mk _ _ _ _ _ tr _ :: rest =>
    1 + sizePyForest tr + sizePyForest rest

/-! ### Derived observations on the embedded code -/

/-- The license produced by strategy 1 (structured registry metadata) for
a package and requested version: the `findNpmLicense` value of the
resolved version metadata, "Unknown" when the fetch fails or the version
is absent from the index. -/
def structuredNpmLicense (env : NpmEnv) (pkg ver : String) : String :=
  match regFetch env pkg with
  | none => "Unknown"
  | some regData =>
    match versionData regData (effectiveVer regData ver) with
    | some vd => findNpmLicense vd
    | none => "Unknown"

/-- The license `resolvePythonDependency` reads from the info object
(checker.go lines 266-269). -/
def pyInfoLicense (info : JMap) : String :=
  match jLookup info "license" with
  | some (Json.str l) => if l != "" then l else "Unknown"
  | _ => "Unknown"

/-- The visited-set keys of the dependencies declared by one version
metadata object (the keys of the recursive calls spawned from it). -/
def childKeys (verData : JMap) : List String :=
  (depsOf verData).map (fun p => nkey p.1 (removeCaretTilde (jStrD p.2)))

/-- All child keys derivable from one registry document. -/
def docKeys (doc : JMap) : List String :=
  match jLookup doc "versions" with
  | some (Json.obj vs) =>
    vs.flatMap (fun p =>
      match p.2 with
      | Json.obj vd => childKeys vd
      | _ => [])
  | _ => []

/-- The finite pool of visited-set keys any recursive call of
`resolveNode` can be made on, for a given environment: the recursion only
ever descends into keys derived from registry documents, so the visited
set can grow at most past this pool, which bounds the recursion depth. -/
def keyPool (env : NpmEnv) : Finset String :=
  (env.registry.flatMap (fun p => docKeys p.2)).toFinset

/-! ### Test fixtures (concrete environments and inputs) -/

/-- A registry document with one version carrying a license and a
dependency map. -/
def mkDoc (lic : String) (deps : List (String × Json)) : JMap :=
  [("versions", Json.obj [("1", Json.obj
      [("license", Json.str lic), ("dependencies", Json.obj deps)])])]

/-- A cyclic registry: A@1 depends on B@1 and B@1 depends on A@1. -/
def envCyc : NpmEnv :=
  { registry :=
      [ ("A", mkDoc "MIT" [("B", Json.str "1")]),
        ("B", mkDoc "MIT" [("A", Json.str "1")]) ],
    page := fun _ => none }

/-- A package.json declaring both A and B as direct dependencies. -/
def dataCyc : JMap :=
  [("dependencies", Json.obj [("A", Json.str "1"), ("B", Json.str "1")])]

/-- The forest resolved from the cyclic registry. -/
def forestCyc : List NodeDependency :=
  match parseNodeDependencies envCyc 10 dataCyc with
  | Except.ok (l, _) => l
  | Except.error _ => []

/-- A registry whose package p has only version 1.0.0 (licensed MIT) and
dist-tags latest 1.0.0; used against a request for the absent 2.0.0. -/
def regDocC3 : JMap :=
  [ ("dist-tags", Json.obj [("latest", Json.str "1.0.0")]),
    ("versions", Json.obj [("1.0.0", Json.obj
        [("license", Json.str "MIT")])]) ]

def envC3 : NpmEnv := { registry := [("p", regDocC3)], page := fun _ => none }

/-- Two independent top-level packages X and Y both depending on the same
sub-package S@1. -/
def envShared : NpmEnv :=
  { registry :=
      [ ("X", mkDoc "MIT" [("S", Json.str "1")]),
        ("Y", mkDoc "MIT" [("S", Json.str "1")]),
        ("S", mkDoc "MIT" []) ],
    page := fun _ => none }

def dataShared : JMap :=
  [("dependencies", Json.obj [("X", Json.str "1"), ("Y", Json.str "1")])]

def forestShared : List NodeDependency :=
  match parseNodeDependencies envShared 10 dataShared with
  | Except.ok (l, _) => l
  | Except.error _ => []

/-- A PyPI environment with one resolvable package p (licensed BSD); any
other package is a simulated network failure. -/
def infoP : JMap :=
  [ ("version", Json.str "3.1"), ("license", Json.str "BSD") ]

def envPyDup : PyEnv :=
  { pypi := fun p =>
      if p = "p" then PyFetch.resp 200 (some [("info", Json.obj infoP)])
      else PyFetch.netErr }

/-- PyPI info for a package that declares no license but does declare
dependencies (requires_dist); the code reads neither a fallback source
nor the dependency list. -/
def infoP4 : JMap :=
  [ ("version", Json.str "3.1"),
    ("requires_dist", Json.arr [Json.str "dep1 >=1.0"]) ]

def envPy4 : PyEnv :=
  { pypi := fun p =>
      if p = "p" then PyFetch.resp 200 (some [("info", Json.obj infoP4)])
      else PyFetch.netErr }

/-- A registry where Y resolves but X is unreachable (simulated network
failure: no registry entry). -/
def envC5 : NpmEnv :=
  { registry := [("Y", mkDoc "MIT" [])], page := fun _ => none }

def dataC5 : JMap :=
  [("dependencies", Json.obj [("X", Json.str "1"), ("Y", Json.str "1")])]

/-- A one-package registry used by witnesses: package a@1, license MIT,
no dependencies. -/
def envW : NpmEnv := { registry := [("a", mkDoc "MIT" [])], page := fun _ => none }

/-! ### Requirement extraction (claims C8 and C10) -/

theorem parseReqLines_eq (lns : List String) :
    parseReqLines lns
      = (lns.filterMap reqOfLine, (lns.filter lineWarned).map goTrim) := by
  induction lns with
  | nil => rfl
  | cons ln rest ih =>
    simp only [parseReqLines, ih, List.filterMap_cons, List.filter_cons,
      reqOfLine, lineWarned]
    by_cases h0 : goTrim ln = ""
    · simp [h0]
    · by_cases h1 : goStartsWith (goTrim ln) "#"
      · simp [h0, h1]
      · by_cases h2 : (goSplitOn (goTrim ln) "==").length = 2
        · simp [h0, h1, h2]
        · by_cases h3 : (goSplitOn (goTrim ln) ">=").length = 2 <;>
            simp [h0, h1, h2, h3]

/-- C8: `parseRequirements` maps every line of the form name==version or
name>=version to one (name, version) requirement, the first matching
separator winning, and a line matching neither separator is skipped with
a logged warning and does not abort parsing of the remaining lines: the
requirement list is the per-line extraction over all lines of the input,
and the warning log holds exactly the unmatched non-blank non-comment
lines. -/
theorem C8_requirement_lines (raw : String) :
    (parseRequirements raw).1 = (goSplitOn raw "\n").filterMap reqOfLine ∧
    (parseRequirements raw).2
      = ((goSplitOn raw "\n").filter lineWarned).map goTrim := by
  unfold parseRequirements
  rw [parseReqLines_eq]
  exact ⟨rfl, rfl⟩

/-- C10: a blank line or a line whose trimmed text starts with "#" is
skipped silently (no requirement and no warning), and warnings are logged
exactly for those non-empty non-comment trimmed lines that neither
separator splits into exactly two parts. -/
theorem C10_blank_comment_silent :
    (∀ ln rest, (goTrim ln = "" ∨ goStartsWith (goTrim ln) "#") →
      parseReqLines (ln :: rest) = parseReqLines rest) ∧
    (∀ raw, (parseRequirements raw).2
      = ((goSplitOn raw "\n").map goTrim).filter (fun l =>
          (l != "") && (!goStartsWith l "#") &&
          ((goSplitOn l "==").length != 2) && ((goSplitOn l ">=").length != 2))) := by
  constructor
  · intro ln rest h
    have hc : (decide (goTrim ln = "") || goStartsWith (goTrim ln) "#") = true := by
      rcases h with h | h <;> simp [h]
    simp [parseReqLines, hc]
  · intro raw
    have h := (parseReqLines_eq (goSplitOn raw "\n")).symm
    unfold parseRequirements
    rw [parseReqLines_eq, List.filter_map]
    rfl

/-- Witness for C10 at a concrete comment line. -/
theorem C10_blank_comment_silent_witness :
    parseReqLines [" # pinned"] = parseReqLines [] :=
  C10_blank_comment_silent.1 " # pinned" [] (Or.inr (by decide))

/-! ### License shape priority (claim C7) -/

theorem firstNonEmpty_prefix_none (xs ys : List (Option String))
    (h : firstNonEmpty xs = none) :
    firstNonEmpty (xs ++ ys) = firstNonEmpty ys := by
  induction xs with
  | nil => rfl
  | cons x rest ih =>
    cases x with
    | none => simp only [firstNonEmpty, List.cons_append] at h ⊢; exact ih h
    | some s =>
      simp only [firstNonEmpty, List.cons_append] at h ⊢
      by_cases hs : s = ""
      · simp [hs] at h ⊢; exact ih h
      · simp [hs] at h

theorem firstNonEmpty_prefix_some (xs ys : List (Option String)) (s : String)
    (h : firstNonEmpty xs = some s) :
    firstNonEmpty (xs ++ ys) = some s := by
  induction xs with
  | nil => simp [firstNonEmpty] at h
  | cons x rest ih =>
    cases x with
    | none => simp only [firstNonEmpty, List.cons_append] at h ⊢; exact ih h
    | some t =>
      simp only [firstNonEmpty, List.cons_append] at h ⊢
      by_cases ht : t = ""
      · simp [ht] at h ⊢; exact ih h
      · simp [ht] at h ⊢; exact h

theorem typeThenName_eq (m : JMap) :
    findNpmLicense.typeThenName m
      = firstNonEmpty [(jLookup m "type").bind jStr, (jLookup m "name").bind jStr] := by
  unfold findNpmLicense.typeThenName
  rcases ht : jLookup m "type" with _ | jt
  · rcases hn : jLookup m "name" with _ | jn
    · simp [firstNonEmpty, jStr]
    · cases jn <;> simp [firstNonEmpty, jStr]
  · rcases hn : jLookup m "name" with _ | jn
    · cases jt <;> simp [firstNonEmpty, jStr]
    · cases jt <;> cases jn <;> simp [firstNonEmpty, jStr]

theorem licensesPart_eq (vd : JMap) :
    findNpmLicense.licensesPart vd
      = (firstNonEmpty [npmLicenseShapes.licensesArrField vd "type",
          npmLicenseShapes.licensesArrField vd "name"]).getD "Unknown" := by
  unfold findNpmLicense.licensesPart npmLicenseShapes.licensesArrField
  rcases ha : jLookup vd "licenses" with _ | ja
  · simp [firstNonEmpty]
  · cases ja with
    | arr es =>
      rcases es with _ | ⟨first, rest⟩
      · simp [firstNonEmpty]
      · cases first <;> simp [firstNonEmpty, typeThenName_eq]
        case obj o =>
          rcases ho : firstNonEmpty [(jLookup o "type").bind jStr,
              (jLookup o "name").bind jStr] with _ | s <;> simp [ho]
    | _ => simp [firstNonEmpty]

theorem findNpmLicense_eq_spec (vd : JMap) :
    findNpmLicense vd = findNpmLicenseSpec vd := by
  unfold findNpmLicense findNpmLicenseSpec npmLicenseShapes
    npmLicenseShapes.licenseObjField
  rcases hl : jLookup vd "license" with _ | jl
  · rw [licensesPart_eq]
    simp [firstNonEmpty, jStr]
  · cases jl with
    | str s =>
      by_cases hs : s = ""
      · subst hs
        rw [licensesPart_eq]
        simp [firstNonEmpty, jStr]
      · simp [hs, firstNonEmpty, jStr]
    | obj lm =>
      dsimp only [jStr]
      rw [typeThenName_eq]
      rcases ho : firstNonEmpty [(jLookup lm "type").bind jStr,
          (jLookup lm "name").bind jStr] with _ | s
      · rw [licensesPart_eq]
        have h2 := firstNonEmpty_prefix_none _
          [npmLicenseShapes.licensesArrField vd "type",
            npmLicenseShapes.licensesArrField vd "name"] ho
        simp only [List.cons_append, List.nil_append] at h2
        simp only [jStr] at h2 ⊢
        simp [firstNonEmpty, h2]
      · have h2 := firstNonEmpty_prefix_some _
          [npmLicenseShapes.licensesArrField vd "type",
            npmLicenseShapes.licensesArrField vd "name"] s ho
        simp only [List.cons_append, List.nil_append] at h2
        simp only [jStr] at h2 ⊢
        simp [firstNonEmpty, h2]
    | arr es =>
      rw [licensesPart_eq]
      simp [firstNonEmpty, jStr]
    | other =>
      rw [licensesPart_eq]
      simp [firstNonEmpty, jStr]

/-- C7: when reading the structured license field from version metadata,
the three shapes are attempted in priority order — the plain string
first, then the object type key followed by its name key, then the first
element of the licenses array (its type key then its name key) — the
first non-empty value found is returned, and "Unknown" is returned when
no shape yields a non-empty value: `findNpmLicense` agrees with the
priority-ordered first-non-empty reading of the shapes. -/
theorem C7_license_shape_priority (vd : JMap) :
    findNpmLicense vd = findNpmLicenseSpec vd :=
  findNpmLicense_eq_spec vd

/-! ### Graph flattening (claim C9) -/

theorem flattenNodeAll_eq_spec :
    ∀ nds parent, flattenNodeAll nds parent = flattenNodeSpec nds parent := by
  have key : ∀ k nds parent, sizeNodeForest nds ≤ k →
      flattenNodeAll nds parent = flattenNodeSpec nds parent := by
    intro k
    induction k with
    | zero =>
      intro nds parent h
      rcases nds with _ | ⟨⟨n, v, l, d, c, tr, lg⟩, rest⟩
      · simp [flattenNodeAll, flattenNodeSpec]
      · simp [sizeNodeForest] at h
    | succ k ih =>
      intro nds parent h
      rcases nds with _ | ⟨⟨n, v, l, d, c, tr, lg⟩, rest⟩
      · simp [flattenNodeAll, flattenNodeSpec]
      · simp only [sizeNodeForest] at h
        have htr : sizeNodeForest tr ≤ k := by omega
        have hrest : sizeNodeForest rest ≤ k := by omega
        simp only [flattenNodeAll, flattenNodeSpec, ih tr n htr,
          ih rest parent hrest]
        rcases tr with _ | ⟨x, xs⟩
        · simp [flattenNodeSpec]
        · simp
  intro nds parent
  exact key (sizeNodeForest nds) nds parent le_rfl

theorem flattenPyAll_eq_spec :
    ∀ pds parent, flattenPyAll pds parent = flattenPySpec pds parent := by
  have key : ∀ k pds parent, sizePyForest pds ≤ k →
      flattenPyAll pds parent = flattenPySpec pds parent := by
    intro k
    induction k with
    | zero =>
      intro pds parent h
      rcases pds with _ | ⟨⟨n, v, l, d, c, tr, lg⟩, rest⟩
      · simp [flattenPyAll, flattenPySpec]
      · simp [sizePyForest] at h
    | succ k ih =>
      intro pds parent h
      rcases pds with _ | ⟨⟨n, v, l, d, c, tr, lg⟩, rest⟩
      · simp [flattenPyAll, flattenPySpec]
      · simp only [sizePyForest] at h
        have htr : sizePyForest tr ≤ k := by omega
        have hrest : sizePyForest rest ≤ k := by omega
        simp only [flattenPyAll, flattenPySpec, ih tr n htr,
          ih rest parent hrest]
        rcases tr with _ | ⟨x, xs⟩
        · simp [flattenPySpec]
        · simp
  intro pds parent
  exact key (sizePyForest pds) pds parent le_rfl

theorem flattenNodeSpec_length :
    ∀ nds parent, (flattenNodeSpec nds parent).length = sizeNodeForest nds := by
  have key : ∀ k nds parent, sizeNodeForest nds ≤ k →
      (flattenNodeSpec nds parent).length = sizeNodeForest nds := by
    intro k
    induction k with
    | zero =>
      intro nds parent h
      rcases nds with _ | ⟨⟨n, v, l, d, c, tr, lg⟩, rest⟩
      · simp [flattenNodeSpec, sizeNodeForest]
      · simp [sizeNodeForest] at h
    | succ k ih =>
      intro nds parent h
      rcases nds with _ | ⟨⟨n, v, l, d, c, tr, lg⟩, rest⟩
      · simp [flattenNodeSpec, sizeNodeForest]
      · simp only [sizeNodeForest] at h
        have htr : sizeNodeForest tr ≤ k := by omega
        have hrest : sizeNodeForest rest ≤ k := by omega
        simp only [flattenNodeSpec, List.length_cons, List.length_append,
          ih tr n htr, ih rest parent hrest, sizeNodeForest]
        omega
  intro nds parent
  exact key (sizeNodeForest nds) nds parent le_rfl

theorem flattenPySpec_length :
    ∀ pds parent, (flattenPySpec pds parent).length = sizePyForest pds := by
  have key : ∀ k pds parent, sizePyForest pds ≤ k →
      (flattenPySpec pds parent).length = sizePyForest pds := by
    intro k
    induction k with
    | zero =>
      intro pds parent h
      rcases pds with _ | ⟨⟨n, v, l, d, c, tr, lg⟩, rest⟩
      · simp [flattenPySpec, sizePyForest]
      · simp [sizePyForest] at h
    | succ k ih =>
      intro pds parent h
      rcases pds with _ | ⟨⟨n, v, l, d, c, tr, lg⟩, rest⟩
      · simp [flattenPySpec, sizePyForest]
      · simp only [sizePyForest] at h
        have htr : sizePyForest tr ≤ k := by omega
        have hrest : sizePyForest rest ≤ k := by omega
        simp only [flattenPySpec, List.length_cons, List.length_append,
          ih tr n htr, ih rest parent hrest, sizePyForest]
        omega
  intro pds parent
  exact key (sizePyForest pds) pds parent le_rfl

/-- C9: flattening is the pre-order traversal that emits exactly one flat
record per node, each node before its descendants, annotating every
record with the immediate parent name (the passed parent name for the
forest roots, so "Direct" at the top-level call sites), in both
ecosystems: the code flatteners agree with the spec pre-order traversal,
and emit one record per node. -/
theorem C9_flatten_is_preorder :
    (∀ nds parent, flattenNodeAll nds parent = flattenNodeSpec nds parent) ∧
    (∀ pds parent, flattenPyAll pds parent = flattenPySpec pds parent) ∧
    (∀ nds parent, (flattenNodeAll nds parent).length = sizeNodeForest nds) ∧
    (∀ pds parent, (flattenPyAll pds parent).length = sizePyForest pds) := by
  refine ⟨flattenNodeAll_eq_spec, flattenPyAll_eq_spec, ?_, ?_⟩
  · intro nds parent
    rw [flattenNodeAll_eq_spec]
    exact flattenNodeSpec_length nds parent
  · intro pds parent
    rw [flattenPyAll_eq_spec]
    exact flattenPySpec_length pds parent

/-! ### License inference totality (claim C6) -/

theorem firstNonEmpty_some_ne (xs : List (Option String)) (s : String)
    (h : firstNonEmpty xs = some s) : s ≠ "" := by
  induction xs with
  | nil => simp [firstNonEmpty] at h
  | cons x rest ih =>
    cases x with
    | none => simp only [firstNonEmpty] at h; exact ih h
    | some t =>
      simp only [firstNonEmpty] at h
      by_cases ht : t = ""
      · simp [ht] at h; exact ih h
      · simp [ht] at h; subst h; exact ht

theorem findNpmLicense_ne_empty (vd : JMap) : findNpmLicense vd ≠ "" := by
  rw [findNpmLicense_eq_spec]
  unfold findNpmLicenseSpec
  rcases h : firstNonEmpty (npmLicenseShapes vd) with _ | s
  · simp
  · simpa using firstNonEmpty_some_ne _ s h

theorem parseLicenseFromLine_ne_unknown (line : String) :
    parseLicenseFromLine line ≠ "Unknown" := by
  unfold parseLicenseFromLine
  rcases h : List.find? (fun kw => strContains (goToUpper line) kw)
      ["MIT", "BSD", "APACHE", "ISC", "ARTISTIC", "ZLIB", "WTFPL", "CDDL",
        "UNLICENSE", "EUPL", "MPL", "CC0", "LGPL", "AGPL"] with _ | kw
  · simp [h]
  · simp only [h]
    have hm := List.mem_of_find?_eq_some h
    intro heq
    rw [heq] at hm
    exact absurd hm (by decide)

theorem firstLicense_ne_unknown (lns : List String) :
    fallbackNpmLicenseByCurl.firstLicense lns ≠ "Unknown" := by
  induction lns with
  | nil => simp [fallbackNpmLicenseByCurl.firstLicense]
  | cons ln rest ih =>
    simp only [fallbackNpmLicenseByCurl.firstLicense]
    by_cases ht : goTrim ln = ""
    · simp [ht]; exact ih
    · simp only [ht, if_false]
      by_cases hl : parseLicenseFromLine (goTrim ln) = ""
      · simp [hl]; exact ih
      · simp [hl]
        exact parseLicenseFromLine_ne_unknown (goTrim ln)

theorem fallback_ne_unknown (env : NpmEnv) (pkg : String) :
    fallbackNpmLicenseByCurl env pkg ≠ "Unknown" := by
  unfold fallbackNpmLicenseByCurl
  rcases hp : env.page pkg with _ | body
  · simp
  · by_cases hg : ((goSplitOn body "\n").filter
        (fun ln => strContains (goToUpper ln) "LICENSE")).isEmpty
    · simp [hg]
    · simp only [hg, Bool.false_eq_true, if_false]
      exact firstLicense_ne_unknown _

theorem finalLicense_ne_empty (env : NpmEnv) (pkg lic : String) (h : lic ≠ "") :
    finalLicense env pkg lic ≠ "" := by
  unfold finalLicense
  by_cases hu : lic = "Unknown"
  · simp only [hu, if_true, if_pos rfl]
    by_cases hf : fallbackNpmLicenseByCurl env pkg = "" <;> simp [hf]
  · simp [hu]; exact h

theorem finalLicense_unknown_iff (env : NpmEnv) (pkg lic : String) :
    finalLicense env pkg lic = "Unknown"
      ↔ (lic = "Unknown" ∧ fallbackNpmLicenseByCurl env pkg = "") := by
  unfold finalLicense
  by_cases hu : lic = "Unknown"
  · simp only [hu, if_pos rfl, true_and]
    by_cases hf : fallbackNpmLicenseByCurl env pkg = ""
    · simp [hf]
    · simp only [hf, bne_iff_ne, ne_eq, not_false_eq_true, if_true]
      constructor
      · intro hc; exact absurd hc (fallback_ne_unknown env pkg)
      · intro hc; exact hc.elim
  · simp [hu]

theorem resolveNode_ok_cases (env : NpmEnv) (f : Nat) (pkg ver : String)
    (vis : Visited) (nd : NodeDependency) (vis2 : Visited)
    (h : resolveNode env (f + 1) pkg ver vis = (Except.ok (some nd), vis2)) :
    nkey pkg ver ∉ vis ∧
    ∃ regData, regFetch env pkg = some regData ∧
      nd.Name = pkg ∧ nd.Version = effectiveVer regData ver ∧
      nd.Language = "node" ∧
      nd.Details = "https://www.npmjs.com/package/" ++ pkg ∧
      nd.Copyleft = isCopyleft nd.License ∧
      ((∃ vd, versionData regData (effectiveVer regData ver) = some vd ∧
          nd.License = finalLicense env pkg (findNpmLicense vd) ∧
          nd.Transitive
            = (resolveChildrenWith (fun a b c => resolveNode env f a b c)
                (depsOf vd) (nkey pkg ver :: vis)).1) ∨
        (versionData regData (effectiveVer regData ver) = none ∧
          nd.License = finalLicense env pkg "Unknown" ∧ nd.Transitive = [])) := by
  simp only [resolveNode] at h
  by_cases hv : nkey pkg ver ∈ vis
  · simp [hv] at h
  · simp only [hv, if_false] at h
    split at h
    · simp at h
    · rename_i regData hr
      split at h
      · rename_i vd hvd
        simp only [Prod.mk.injEq, Except.ok.injEq, Option.some.injEq] at h
        obtain ⟨hnd, hvis⟩ := h
        subst hnd
        exact ⟨hv, regData, hr, rfl, rfl, rfl, rfl, rfl,
          Or.inl ⟨vd, hvd, rfl, rfl⟩⟩
      · rename_i hvd
        simp only [Prod.mk.injEq, Except.ok.injEq, Option.some.injEq] at h
        obtain ⟨hnd, hvis⟩ := h
        subst hnd
        exact ⟨hv, regData, hr, rfl, rfl, rfl, rfl, rfl, Or.inr ⟨hvd, rfl, rfl⟩⟩

/-- C6: for every resolved node, the stored license is a non-empty
string (inference never fails), and it is "Unknown" exactly when the
structured-metadata strategy yielded "Unknown" and the page-scrape
fallback failed or returned empty. -/
theorem C6_license_inference_total (env : NpmEnv) (f : Nat) (pkg ver : String)
    (vis : Visited) (nd : NodeDependency) (vis2 : Visited)
    (h : resolveNode env (f + 1) pkg ver vis = (Except.ok (some nd), vis2)) :
    nd.License ≠ "" ∧
    (nd.License = "Unknown" ↔
      (structuredNpmLicense env pkg ver = "Unknown" ∧
        fallbackNpmLicenseByCurl env pkg = "")) := by
  obtain ⟨hv, regData, hr, _, _, _, _, _, hcases⟩ :=
    resolveNode_ok_cases env f pkg ver vis nd vis2 h
  rcases hcases with ⟨vd, hvd, hlic, _⟩ | ⟨hvd, hlic, _⟩
  · constructor
    · rw [hlic]
      exact finalLicense_ne_empty env pkg _ (findNpmLicense_ne_empty vd)
    · rw [hlic, finalLicense_unknown_iff]
      simp [structuredNpmLicense, hr, hvd]
  · constructor
    · rw [hlic]
      exact finalLicense_ne_empty env pkg _ (by simp)
    · rw [hlic, finalLicense_unknown_iff]
      simp [structuredNpmLicense, hr, hvd]

/-- Witness for C6: the node resolved for package a at version 1 in the
one-package witness environment. -/
theorem C6_license_inference_total_witness :
    (NodeDependency.mk "a" "1" "MIT" "https://www.npmjs.com/package/a"
        false [] "node").License ≠ "" ∧
    ((NodeDependency.mk "a" "1" "MIT" "https://www.npmjs.com/package/a"
        false [] "node").License = "Unknown" ↔
      (structuredNpmLicense envW "a" "1" = "Unknown" ∧
        fallbackNpmLicenseByCurl envW "a" = "")) :=
  C6_license_inference_total envW 0 "a" "1" []
    (NodeDependency.mk "a" "1" "MIT" "https://www.npmjs.com/package/a"
      false [] "node") ["a@1"] rfl

/-! ### Resolver termination and cycle handling (claim C1) -/


theorem assocFind_mem {α : Type} (l : List (String × α)) (k : String) (v : α)
    (h : assocFind l k = some v) : (k, v) ∈ l := by
  induction l with
  | nil => simp [assocFind] at h
  | cons p rest ih =>
    obtain ⟨k2, v2⟩ := p
    simp only [assocFind] at h
    by_cases hk : k2 = k
    · subst hk
      simp at h
      subst h
      exact List.mem_cons_self _ _
    · simp [hk] at h
      exact List.mem_cons_of_mem _ (ih h)

theorem childKeys_in_pool (env : NpmEnv) (pkg : String) (regData : JMap)
    (hr : regFetch env pkg = some regData) (v : String) (vd : JMap)
    (hvd : versionData regData v = some vd) :
    ∀ k ∈ childKeys vd, k ∈ keyPool env := by
  intro k hk
  unfold keyPool
  rw [List.mem_toFinset]
  apply List.mem_flatMap.mpr
  refine ⟨(pkg, regData), assocFind_mem _ _ _ hr, ?_⟩
  unfold versionData at hvd
  unfold docKeys
  split at hvd
  · rename_i vs hvs
    split at hvd
    · rename_i verData hvv
      rw [hvs]
      apply List.mem_flatMap.mpr
      have hveq : verData = vd := by injection hvd
      refine ⟨(v, Json.obj verData), assocFind_mem _ _ _ hvv, ?_⟩
      rw [hveq]
      exact hk
    · exact absurd hvd (by simp)
  · exact absurd hvd (by simp)

theorem resolveChildrenWith_mono (res : String → String → Visited → NpmRes)
    (hres : ∀ a b c, ∀ x ∈ c, x ∈ (res a b c).2) :
    ∀ deps vis, ∀ x ∈ vis, x ∈ (resolveChildrenWith res deps vis).2 := by
  intro deps
  induction deps with
  | nil => intro vis x hx; simpa [resolveChildrenWith] using hx
  | cons p rest ih =>
    intro vis x hx
    obtain ⟨dn, dv⟩ := p
    simp only [resolveChildrenWith]
    rcases hres2 : res dn (removeCaretTilde (jStrD dv)) vis with ⟨r, vis2⟩
    have hx2 : x ∈ vis2 := by
      have h3 := hres dn (removeCaretTilde (jStrD dv)) vis x hx
      rw [hres2] at h3
      exact h3
    cases r with
    | ok o =>
      cases o with
      | some nd => exact ih vis2 x hx2
      | none => exact ih vis2 x hx2
    | error e => exact ih vis2 x hx2

theorem resolveNode_succ (env : NpmEnv) (f : Nat) (pkg ver : String)
    (vis : Visited) :
    resolveNode env (f + 1) pkg ver vis
      = if nkey pkg ver ∈ vis then (Except.ok none, vis)
        else withRegData env f pkg ver (nkey pkg ver :: vis) (regFetch env pkg) := by
  by_cases hv : nkey pkg ver ∈ vis
  · simp [resolveNode, hv]
  · simp only [resolveNode, hv, if_false]
    rcases hr : regFetch env pkg with _ | regData
    · rfl
    · rcases hvd : versionData regData (effectiveVer regData ver) with _ | vd <;>
        simp [withRegData, withVerData, hvd]

theorem resolveNode_mono (env : NpmEnv) :
    ∀ f pkg ver vis, ∀ x ∈ vis, x ∈ (resolveNode env f pkg ver vis).2 := by
  intro f
  induction f with
  | zero => intro pkg ver vis x hx; simpa [resolveNode] using hx
  | succ f ih =>
    intro pkg ver vis x hx
    rw [resolveNode_succ env f pkg ver vis]
    by_cases hv : nkey pkg ver ∈ vis
    · simp only [hv, if_true, if_pos rfl]
      exact hx
    · simp only [hv, if_false]
      have hx1 : x ∈ nkey pkg ver :: vis := List.mem_cons_of_mem _ hx
      rcases hr : regFetch env pkg with _ | regData
      · simpa [withRegData] using hx1
      · simp only [withRegData]
        rcases hvd : versionData regData (effectiveVer regData ver) with _ | vd
        · simpa [withVerData] using hx1
        · simp only [withVerData]
          exact resolveChildrenWith_mono _ ih (depsOf vd) _ x hx1

theorem resolveNode_visited (env : NpmEnv) (f : Nat) (pkg ver : String)
    (vis : Visited) (h : nkey pkg ver ∈ vis) :
    resolveNode env (f + 1) pkg ver vis = (Except.ok none, vis) := by
  simp [resolveNode, h]

theorem list_toFinset_subset (vis vis2 : List String) (h : ∀ x ∈ vis, x ∈ vis2) :
    vis.toFinset ⊆ vis2.toFinset := by
  intro x hx
  rw [List.mem_toFinset] at hx ⊢
  exact h x hx

theorem SC_of_SN (env : NpmEnv) (f : Nat)
    (hSN : ∀ pkg ver vis,
      ((keyPool env) \ (nkey pkg ver :: vis).toFinset).card < f →
      resolveNode env (f + 1) pkg ver vis = resolveNode env (f + 2) pkg ver vis) :
    ∀ deps vis,
      (∀ p ∈ deps, nkey p.1 (removeCaretTilde (jStrD p.2)) ∈ keyPool env) →
      ((keyPool env) \ vis.toFinset).card < f + 1 →
      resolveChildrenWith (fun a b c => resolveNode env (f + 1) a b c) deps vis
        = resolveChildrenWith (fun a b c => resolveNode env (f + 2) a b c) deps vis := by
  intro deps
  induction deps with
  | nil => intro vis hkeys hcard; rfl
  | cons p rest ih =>
    intro vis hkeys hcard
    obtain ⟨dn, dv⟩ := p
    simp only [resolveChildrenWith]
    have hkey : nkey dn (removeCaretTilde (jStrD dv)) ∈ keyPool env :=
      hkeys (dn, dv) (List.mem_cons_self _ _)
    by_cases hvk : nkey dn (removeCaretTilde (jStrD dv)) ∈ vis
    · rw [resolveNode_visited env f dn _ vis hvk,
        resolveNode_visited env (f + 1) dn _ vis hvk]
      exact ih vis (fun q hq => hkeys q (List.mem_cons_of_mem _ hq)) hcard
    · have hbound : ((keyPool env)
          \ (nkey dn (removeCaretTilde (jStrD dv)) :: vis).toFinset).card < f := by
        rw [List.toFinset_cons, Finset.sdiff_insert]
        have hmem : nkey dn (removeCaretTilde (jStrD dv))
            ∈ (keyPool env) \ vis.toFinset := by
          rw [Finset.mem_sdiff, List.mem_toFinset]
          exact ⟨hkey, hvk⟩
        have hpos : 0 < ((keyPool env) \ vis.toFinset).card :=
          Finset.card_pos.mpr ⟨_, hmem⟩
        rw [Finset.card_erase_of_mem hmem]
        omega
      have heq := hSN dn (removeCaretTilde (jStrD dv)) vis hbound
      rw [heq]
      rcases hres : resolveNode env (f + 2) dn (removeCaretTilde (jStrD dv)) vis
        with ⟨r, vis2⟩
      have hvis2 : ∀ x ∈ vis, x ∈ vis2 := by
        intro x hx
        have h3 := resolveNode_mono env (f + 2) dn (removeCaretTilde (jStrD dv)) vis x hx
        rw [hres] at h3
        exact h3
      have hcard2 : ((keyPool env) \ vis2.toFinset).card < f + 1 := by
        have hsub : (keyPool env) \ vis2.toFinset ⊆ (keyPool env) \ vis.toFinset :=
          Finset.sdiff_subset_sdiff (le_refl _) (list_toFinset_subset vis vis2 hvis2)
        exact lt_of_le_of_lt (Finset.card_le_card hsub) hcard
      have hrest := ih vis2 (fun q hq => hkeys q (List.mem_cons_of_mem _ hq)) hcard2
      cases r with
      | ok o =>
        cases o with
        | some nd => simp only [hrest]
        | none => exact hrest
      | error e => exact hrest

theorem SN_all (env : NpmEnv) :
    ∀ f pkg ver vis,
      ((keyPool env) \ (nkey pkg ver :: vis).toFinset).card < f →
      resolveNode env (f + 1) pkg ver vis = resolveNode env (f + 2) pkg ver vis := by
  intro f
  induction f with
  | zero => intro pkg ver vis h; exact absurd h (by omega)
  | succ f ih =>
    intro pkg ver vis h
    rw [resolveNode_succ env (f + 1) pkg ver vis,
      resolveNode_succ env (f + 2) pkg ver vis]
    by_cases hv : nkey pkg ver ∈ vis
    · simp only [hv, if_true, if_pos rfl]
    · simp only [hv, if_false]
      rcases hr : regFetch env pkg with _ | regData
      · rfl
      · simp only [withRegData]
        rcases hvd : versionData regData (effectiveVer regData ver) with _ | vd
        · rfl
        · simp only [withVerData]
          have hkeys : ∀ p ∈ depsOf vd,
              nkey p.1 (removeCaretTilde (jStrD p.2)) ∈ keyPool env := by
            intro p hp
            apply childKeys_in_pool env pkg regData hr (effectiveVer regData ver) vd hvd
            unfold childKeys
            exact List.mem_map_of_mem _ hp
          have hch := SC_of_SN env f ih (depsOf vd) (nkey pkg ver :: vis) hkeys h
          simp only [hch]



theorem resolveNode_stable (env : NpmEnv) (pkg ver : String) (vis : Visited)
    (f g : Nat) (hf : (keyPool env).card + 2 ≤ f)
    (hg : (keyPool env).card + 2 ≤ g) :
    resolveNode env f pkg ver vis = resolveNode env g pkg ver vis := by
  have step : ∀ m, (keyPool env).card + 2 ≤ m →
      resolveNode env m pkg ver vis = resolveNode env (m + 1) pkg ver vis := by
    intro m hm
    obtain ⟨m2, rfl⟩ : ∃ m2, m = m2 + 1 := ⟨m - 1, by omega⟩
    apply SN_all
    have hsub : (keyPool env) \ (nkey pkg ver :: vis).toFinset ⊆ keyPool env :=
      Finset.sdiff_subset
    have hc := Finset.card_le_card hsub
    omega
  have ladder : ∀ k m, (keyPool env).card + 2 ≤ m →
      resolveNode env m pkg ver vis = resolveNode env (m + k) pkg ver vis := by
    intro k
    induction k with
    | zero => intro m hm; rfl
    | succ k ih =>
      intro m hm
      rw [ih m hm]
      have hstep := step (m + k) (by omega)
      exact hstep
  have h1 := ladder (f - ((keyPool env).card + 2)) ((keyPool env).card + 2) le_rfl
  have h2 := ladder (g - ((keyPool env).card + 2)) ((keyPool env).card + 2) le_rfl
  rw [show (keyPool env).card + 2 + (f - ((keyPool env).card + 2)) = f by omega] at h1
  rw [show (keyPool env).card + 2 + (g - ((keyPool env).card + 2)) = g by omega] at h2
  rw [← h1, ← h2]


/-- C1: resolution terminates on every (finite) dependency graph input —
the fuel-indexed embedding of `resolveNodeDependency` stabilises once the
fuel exceeds a bound computed from the registry — an already-visited
(name, version) key is returned as no new node and is never re-expanded,
and on the concrete cyclic registry A@1 -> B@1 -> A@1 the forest resolved
by `parseNodeDependencies` contains each of A and B exactly once. -/
theorem C1_resolution_terminates_cycle_once :
    (∀ (env : NpmEnv) (pkg ver : String) (vis : Visited) (f g : Nat),
      (keyPool env).card + 2 ≤ f → (keyPool env).card + 2 ≤ g →
      resolveNode env f pkg ver vis = resolveNode env g pkg ver vis) ∧
    (∀ (env : NpmEnv) (f : Nat) (pkg ver : String) (vis : Visited),
      nkey pkg ver ∈ vis →
      resolveNode env (f + 1) pkg ver vis = (Except.ok none, vis)) ∧
    ((flattenNodeAll forestCyc "Direct").filter
        (fun r => r.Name == "A")).length = 1 ∧
    ((flattenNodeAll forestCyc "Direct").filter
        (fun r => r.Name == "B")).length = 1 := by
  refine ⟨resolveNode_stable, resolveNode_visited, ?_, ?_⟩ <;>
  · have hforest : forestCyc
        = [NodeDependency.mk "A" "1" "MIT" "https://www.npmjs.com/package/A" false
            [NodeDependency.mk "B" "1" "MIT" "https://www.npmjs.com/package/B" false
              [] "node"] "node"] := rfl
    rw [hforest]
    simp [flattenNodeAll, NodeDependency.Name]

/-- Witness for C1 on the cyclic two-package registry: the bound there is
(keyPool envCyc).card + 2 = 4, and A@1 is a visited key. -/
theorem C1_resolution_terminates_cycle_once_witness :
    resolveNode envCyc 4 "A" "1" [] = resolveNode envCyc 9 "A" "1" [] ∧
    resolveNode envCyc 3 "A" "1" ["A@1"] = (Except.ok none, ["A@1"]) :=
  ⟨C1_resolution_terminates_cycle_once.1 envCyc "A" "1" [] 4 9
      (by decide) (by decide),
    C1_resolution_terminates_cycle_once.2.1 envCyc 2 "A" "1" ["A@1"]
      (by decide)⟩

/-! ### Version fallback (claim C3) -/

/-- Counterexample for C3: package p has version 1.0.0 (license MIT) and
dist-tags latest 1.0.0, but the requested version 2.0.0 is absent from
the index; the resolver does not fall back to latest — it returns a node
labelled 2.0.0 with license Unknown and no children. -/
theorem C3_version_fallback_counterexample :
    regFetch envC3 "p" = some regDocC3 ∧
    (versionData regDocC3 "2.0.0").isNone = true ∧
    effectiveVer regDocC3 "" = "1.0.0" ∧
    ((versionData regDocC3 "1.0.0").map findNpmLicense) = some "MIT" ∧
    (resolveNode envC3 5 "p" "2.0.0" []).1
      = Except.ok (some (NodeDependency.mk "p" "2.0.0" "Unknown"
          "https://www.npmjs.com/package/p" false [] "node")) :=
  ⟨rfl, rfl, rfl, rfl, rfl⟩

/-- C3 (amended): only an empty requested version falls back to the
dist-tags latest version; the resolved version field always names the
version whose metadata was used — a node carries either the license and
children of the version index entry for its own resolved version, or
(when that version is absent from the index) license from the fallback
chain and no children. -/
theorem C3_version_fallback_amended :
    (∀ (env : NpmEnv) (f : Nat) (pkg ver : String) (vis : Visited)
        (nd : NodeDependency) (vis2 : Visited),
      resolveNode env (f + 1) pkg ver vis = (Except.ok (some nd), vis2) →
      ∃ regData, regFetch env pkg = some regData ∧
        nd.Version = effectiveVer regData ver ∧
        ((∃ vd, versionData regData (effectiveVer regData ver) = some vd ∧
            nd.License = finalLicense env pkg (findNpmLicense vd) ∧
            nd.Transitive
              = (resolveChildrenWith (fun a b c => resolveNode env f a b c)
                  (depsOf vd) (nkey pkg ver :: vis)).1) ∨
          (versionData regData (effectiveVer regData ver) = none ∧
            nd.License = finalLicense env pkg "Unknown" ∧
            nd.Transitive = []))) ∧
    (∀ (regData : JMap) (ver : String), ver ≠ "" →
      effectiveVer regData ver = ver) := by
  constructor
  · intro env f pkg ver vis nd vis2 h
    obtain ⟨hv, regData, hr, _, hver, _, _, _, hcases⟩ :=
      resolveNode_ok_cases env f pkg ver vis nd vis2 h
    exact ⟨regData, hr, hver, hcases⟩
  · intro regData ver hv
    simp [effectiveVer, hv]

/-- Witness for C3 at the one-package witness environment. -/
theorem C3_version_fallback_amended_witness :
    ∃ regData, regFetch envW "a" = some regData ∧
      (NodeDependency.mk "a" "1" "MIT" "https://www.npmjs.com/package/a"
          false [] "node").Version = effectiveVer regData "1" ∧
      ((∃ vd, versionData regData (effectiveVer regData "1") = some vd ∧
          (NodeDependency.mk "a" "1" "MIT" "https://www.npmjs.com/package/a"
              false [] "node").License = finalLicense envW "a" (findNpmLicense vd) ∧
          (NodeDependency.mk "a" "1" "MIT" "https://www.npmjs.com/package/a"
              false [] "node").Transitive
            = (resolveChildrenWith (fun a b c => resolveNode envW 0 a b c)
                (depsOf vd) (nkey "a" "1" :: [])).1) ∨
        (versionData regData (effectiveVer regData "1") = none ∧
          (NodeDependency.mk "a" "1" "MIT" "https://www.npmjs.com/package/a"
              false [] "node").License = finalLicense envW "a" "Unknown" ∧
          (NodeDependency.mk "a" "1" "MIT" "https://www.npmjs.com/package/a"
              false [] "node").Transitive = [])) :=
  C3_version_fallback_amended.1 envW 0 "a" "1" []
    (NodeDependency.mk "a" "1" "MIT" "https://www.npmjs.com/package/a"
      false [] "node") ["a@1"] rfl

/-! ### Per-candidate resolution behaviour (claim C4) -/

/-- Counterexample for C4: a PyPI package whose metadata declares
dependencies (requires_dist) and no license resolves to a node with
license Unknown and no children — the Python resolver runs no page-scrape
fallback and resolves no declared dependency. -/
theorem C4_resolver_behavior_counterexample :
    (jLookup infoP4 "requires_dist").isSome = true ∧
    (resolvePythonDependency envPy4 "p" "1" []).1
      = Except.ok (some (PythonDependency.mk "p" "1" "Unknown"
          "https://pypi.org/pypi/p/json" false [] "python")) :=
  ⟨rfl, rfl⟩

/-- C4 (amended): in the Node ecosystem every not-yet-visited candidate is
marked visited, its metadata fetched, the page-scrape fallback run exactly
when structured metadata yields "Unknown", and every declared direct
dependency recursively resolved and attached as children; the Python
resolver marks visited and fetches metadata, but reads the license only
from the structured info.license field (no fallback) and never resolves
sub-dependencies (children always empty). -/
theorem C4_resolver_behavior_amended :
    (∀ (env : NpmEnv) (f : Nat) (pkg ver : String) (vis : Visited),
      nkey pkg ver ∉ vis →
      nkey pkg ver ∈ (resolveNode env (f + 1) pkg ver vis).2) ∧
    (∀ (env : NpmEnv) (f : Nat) (pkg ver : String) (vis : Visited)
        (regData vd : JMap),
      nkey pkg ver ∉ vis →
      regFetch env pkg = some regData →
      versionData regData (effectiveVer regData ver) = some vd →
      resolveNode env (f + 1) pkg ver vis
        = (Except.ok (some (NodeDependency.mk pkg (effectiveVer regData ver)
            (finalLicense env pkg (findNpmLicense vd))
            ("https://www.npmjs.com/package/" ++ pkg)
            (isCopyleft (finalLicense env pkg (findNpmLicense vd)))
            (resolveChildrenWith (fun a b c => resolveNode env f a b c)
                (depsOf vd) (nkey pkg ver :: vis)).1 "node")),
          (resolveChildrenWith (fun a b c => resolveNode env f a b c)
              (depsOf vd) (nkey pkg ver :: vis)).2)) ∧
    (∀ (env : NpmEnv) (pkg lic : String),
      (lic ≠ "Unknown" → finalLicense env pkg lic = lic) ∧
      finalLicense env pkg "Unknown"
        = (if fallbackNpmLicenseByCurl env pkg != "" then
            fallbackNpmLicenseByCurl env pkg else "Unknown")) ∧
    (∀ (env : PyEnv) (pkg ver : String) (vis : Visited),
      nkey pkg ver ∉ vis →
      nkey pkg ver ∈ (resolvePythonDependency env pkg ver vis).2 ∧
      (∀ (d : PythonDependency) (vis2 : Visited),
        resolvePythonDependency env pkg ver vis = (Except.ok (some d), vis2) →
        d.Transitive = [] ∧
        ∃ data info, env.pypi pkg = PyFetch.resp 200 (some data) ∧
          jLookup data "info" = some (Json.obj info) ∧
          d.License = pyInfoLicense info)) := by
  refine ⟨?_, ?_, ?_, ?_⟩
  · intro env f pkg ver vis hv
    rw [resolveNode_succ env f pkg ver vis]
    simp only [hv, if_false]
    rcases hr : regFetch env pkg with _ | regData
    · simp [withRegData]
    · simp only [withRegData]
      rcases hvd : versionData regData (effectiveVer regData ver) with _ | vd
      · simp [withVerData]
      · simp only [withVerData]
        exact resolveChildrenWith_mono _ (resolveNode_mono env f) (depsOf vd) _ _
          (List.mem_cons_self _ _)
  · intro env f pkg ver vis regData vd hv hr hvd
    rw [resolveNode_succ env f pkg ver vis]
    simp only [hv, if_false, hr, withRegData, hvd, withVerData]
  · intro env pkg lic
    constructor
    · intro hl
      simp [finalLicense, hl]
    · simp [finalLicense]
  · intro env pkg ver vis hv
    unfold resolvePythonDependency
    simp only [hv, if_false]
    rcases hp : env.pypi pkg with _ | ⟨status, body⟩
    · simp
    · by_cases hs : status = 200
      · subst hs
        simp only [ne_eq, not_true_eq_false, if_false, reduceIte]
        rcases body with _ | data
        · simp
        · rcases hinfo : jLookup data "info" with _ | jinfo
          · simp [hinfo]
          · cases jinfo with
            | obj info =>
              constructor
              · simp [hinfo]
              · intro d vis2 hd
                simp only [hinfo, Prod.mk.injEq, Except.ok.injEq,
                  Option.some.injEq] at hd
                obtain ⟨hdd, _⟩ := hd
                subst hdd
                exact ⟨rfl, data, info, rfl, hinfo, rfl⟩
            | str s => simp [hinfo]
            | arr es => simp [hinfo]
            | other => simp [hinfo]
      · simp [hs]

/-- Witness for C4: the visited key of the one-package witness run. -/
theorem C4_resolver_behavior_amended_witness :
    nkey "a" "1" ∈ (resolveNode envW 1 "a" "1" []).2 :=
  C4_resolver_behavior_amended.1 envW 0 "a" "1" [] (by decide)

/-! ### Visited-set sharing (claim C2) -/

/-- Counterexample for C2: in the Python path each top-level requirement
gets a fresh empty visited map, so the same (name, version) requirement
listed twice is fully resolved twice — the second occurrence is not
omitted. -/
theorem C2_shared_visited_counterexample :
    (parsePythonDependencies envPyDup
        [{ name := "p", version := "1" }, { name := "p", version := "1" }]).1.length
      = 2 ∧
    (parsePythonDependencies envPyDup
        [{ name := "p", version := "1" }, { name := "p", version := "1" }]).1.map
        (fun d => d.Name) = ["p", "p"] :=
  ⟨rfl, rfl⟩

/-- C2 (amended): the Node ecosystem shares one visited set across all
top-level requirements — a sub-package reached from two top-level
packages is fully resolved under the first branch and omitted (returned
as no new node) under the second; the Python ecosystem instead gives each
top-level requirement a fresh empty visited set, so a key reached under
two top-level requirements is resolved under both. -/
theorem C2_shared_visited_amended :
    flattenNodeAll forestShared "Direct"
      = [FlatDep.mk "X" "1" "MIT" "https://www.npmjs.com/package/X" "node" "Direct",
         FlatDep.mk "S" "1" "MIT" "https://www.npmjs.com/package/S" "node" "X",
         FlatDep.mk "Y" "1" "MIT" "https://www.npmjs.com/package/Y" "node" "Direct"] ∧
    (∀ (env : NpmEnv) (f : Nat) (pkg ver : String) (vis : Visited),
      nkey pkg ver ∈ vis →
      resolveNode env (f + 1) pkg ver vis = (Except.ok none, vis)) ∧
    (∀ (env : PyEnv) (r : Requirement) (rest : List Requirement),
      parsePythonDependencies env (r :: rest)
        = (match (resolvePythonDependency env r.name r.version []).1 with
           | Except.ok (some d) => (d :: (parsePythonDependencies env rest).1,
               (parsePythonDependencies env rest).2)
           | Except.ok none => parsePythonDependencies env rest
           | Except.error e => ((parsePythonDependencies env rest).1,
               e :: (parsePythonDependencies env rest).2))) := by
  refine ⟨?_, ?_, ?_⟩
  · have hforest : forestShared
        = [NodeDependency.mk "X" "1" "MIT" "https://www.npmjs.com/package/X" false
            [NodeDependency.mk "S" "1" "MIT" "https://www.npmjs.com/package/S" false
              [] "node"] "node",
           NodeDependency.mk "Y" "1" "MIT" "https://www.npmjs.com/package/Y" false
            [] "node"] := rfl
    rw [hforest]
    simp [flattenNodeAll]
  · intro env f pkg ver vis hv
    exact resolveNode_visited env f pkg ver vis hv
  · intro env r rest
    rfl

/-- Witness for C2 on the cyclic registry: the already-visited key B@1 is
returned as no new node. -/
theorem C2_shared_visited_amended_witness :
    resolveNode envCyc 5 "B" "1" ["B@1", "A@1"]
      = (Except.ok none, ["B@1", "A@1"]) :=
  C2_shared_visited_amended.2.1 envCyc 4 "B" "1" ["B@1", "A@1"] (by decide)

/-! ### Error isolation (claim C5) -/

/-- Counterexample for C5: with package X unreachable and Y resolvable,
the Node top-level loop omits X and still resolves Y, but its log trace
is empty — the per-requirement error is silently discarded, not logged. -/
theorem C5_error_isolation_counterexample :
    parseNodeDependencies envC5 4 dataC5
      = Except.ok ([NodeDependency.mk "Y" "1" "MIT"
          "https://www.npmjs.com/package/Y" false [] "node"], []) :=
  rfl

/-- C5 (amended): a resolution error for one top-level requirement never
aborts the others and is never raised to the caller — the failed node is
omitted and the loop continues; the Python path logs the error on its
error channel, while the Node path discards it silently (its log trace is
always empty). -/
theorem C5_error_isolation_amended :
    (∀ (env : NpmEnv) (fuel : Nat) (data : JMap) (deps : List (String × Json)),
      jLookup data "dependencies" = some (Json.obj deps) →
      ∃ l, parseNodeDependencies env fuel data = Except.ok (l, [])) ∧
    (∀ (res : String → String → Visited → NpmRes) (dn : String) (dv : Json)
        (rest : List (String × Json)) (vis : Visited) (e : Unit) (vis2 : Visited),
      res dn (removeCaretTilde (jStrD dv)) vis = (Except.error e, vis2) →
      resolveChildrenWith res ((dn, dv) :: rest) vis
        = resolveChildrenWith res rest vis2) ∧
    (∀ (env : PyEnv) (r : Requirement) (rest : List Requirement) (e : PyErr),
      (resolvePythonDependency env r.name r.version []).1 = Except.error e →
      parsePythonDependencies env (r :: rest)
        = ((parsePythonDependencies env rest).1,
           e :: (parsePythonDependencies env rest).2)) := by
  refine ⟨?_, ?_, ?_⟩
  · intro env fuel data deps h
    unfold parseNodeDependencies
    rw [h]
    exact ⟨_, rfl⟩
  · intro res dn dv rest vis e vis2 h
    simp only [resolveChildrenWith, h]
  · intro env r rest e h
    simp only [parsePythonDependencies, h]

/-- Witness for C5: the unreachable requirement x@2 is logged and omitted
while p@1 still resolves. -/
theorem C5_error_isolation_amended_witness :
    parsePythonDependencies envPyDup
        ({ name := "x", version := "2" } :: [{ name := "p", version := "1" }])
      = ((parsePythonDependencies envPyDup [{ name := "p", version := "1" }]).1,
         PyErr.netErr :: (parsePythonDependencies envPyDup
            [{ name := "p", version := "1" }]).2) :=
  C5_error_isolation_amended.2.2 envPyDup { name := "x", version := "2" }
    [{ name := "p", version := "1" }] PyErr.netErr rfl

end NestedDep
